import Mathlib

/-!
Shallow embedding of the rldd-rex library (src/lib.rs): a read-only ELF
shared-library dependency resolver.  Filesystem effects (open/mmap/parse,
existence checks, canonicalization, metadata, config reading, glob) are
abstracted as an explicit `FS` record of pure functions; paths are strings
with the semantics of the Rust standard path operations the source uses
(`join`, `parent`, `file_name`) modelled explicitly.  The build is modelled
with the default feature set (the optional `enable_ld_library_path` feature
off) on a linux target, so the feature-gated LD_LIBRARY_PATH block and the
cross-architecture check are compiled out, matching a default `cargo build`.
-/

namespace RlddRex

/- ---------------------------------------------------------------------
String and path helpers.  These model the Rust `str` / `std::path`
operations used by the source.  They are written over `List Char` by
structural recursion so that every concrete run reduces in the kernel.
--------------------------------------------------------------------- -/

/-- String from a list of characters. -/
def ofChars (l : List Char) : String := String.mk l

/-- `listIsPre pat l` is true iff `pat` is a prefix of `l`
(Rust `str::starts_with`). -/
def listIsPre : List Char → List Char → Bool
  | [], _ => true
  | _ :: _, [] => false
  | a :: as, b :: bs => a == b && listIsPre as bs

/-- `hasSub pat l` is true iff `pat` occurs as a contiguous substring of `l`
(Rust `str::contains`). -/
def hasSub (pat : List Char) : List Char → Bool
  | [] => listIsPre pat []
  | c :: t => listIsPre pat (c :: t) || hasSub pat t

/-- Rust `str::contains` on strings. -/
def strContains (s pat : String) : Bool := hasSub pat.data s.data

/-- Split a character list at every occurrence of `c`. -/
def splitChar (c : Char) : List Char → List (List Char)
  | [] => [[]]
  | a :: t =>
    match splitChar c t with
    | r :: rs => if a == c then [] :: r :: rs else (a :: r) :: rs
    | [] => [[a]]

/-- Rust `str::trim` (ASCII whitespace suffices for the config files read
by the source). -/
def trimChars (l : List Char) : List Char :=
  ((l.dropWhile Char.isWhitespace).reverse.dropWhile Char.isWhitespace).reverse

/-- Rust `str::trim` on strings. -/
def trimStr (s : String) : String := ofChars (trimChars s.data)

/-- Rust `str::lines`: split on newline.  (Rust omits a final empty segment
and strips a trailing carriage return; every call site in the source trims
each line and drops empty lines, so this simpler splitting is
observationally equivalent there.) -/
def linesOf (s : String) : List String := (splitChar '\n' s.data).map ofChars

/-- Rust `str::strip_pre,fix`: `some` of the remainder when `pat` is a
prefix of `l`. -/
def stripPre (pat : List Char) (l : List Char) : Option (List Char) :=
  if listIsPre pat l then some (l.drop pat.length) else none

/-- Drop trailing path separators (helper for Rust `Path::parent` /
`Path::file_name`). -/
def dropTrailSlash (l : List Char) : List Char :=
  (l.reverse.dropWhile (fun c => c == '/')).reverse

/-- Rust `Path::parent`: the path without its final component; `none` for
the root path and the empty path. -/
def parentChars (l : List Char) : Option (List Char) :=
  match dropTrailSlash l with
  | [] => none
  | l1 =>
    let r := (l1.reverse).dropWhile (fun c => !(c == '/'))
    match r.dropWhile (fun c => c == '/') with
    | [] => if r.isEmpty then some [] else some ['/']
    | pre => some pre.reverse

/-- Rust `Path::parent` on strings. -/
def parentPath (p : String) : Option String := (parentChars p.data).map ofChars

/-- Rust `Path::file_name`: the final normal component (`.` components are
normalized away; a final `..` yields `none`). -/
def fileName (p : String) : Option String :=
  let comps := ((splitChar '/' p.data).map ofChars).filter
    (fun c => !(c == "") && !(c == "."))
  match comps.getLast? with
  | none => none
  | some c => if c == ".." then none else some c

/-- Rust `Path::join` / `PathBuf::push`: joining an absolute path replaces
the base entirely; otherwise a separator is inserted when needed. -/
def pathJoin (a b : String) : String :=
  if listIsPre ['/'] b.data then b
  else if a == "" then b
  else
    match a.data.getLast? with
    | some '/' => a ++ b
    | _ => a ++ "/" ++ b

/- ---------------------------------------------------------------------
Data model (src/lib.rs lines 14-45) and the parsed-ELF metadata the core
consumes from the goblin parser (header fields, interpreter, needed
libraries, rpath/runpath strings, presence of a dynamic section).
--------------------------------------------------------------------- -/

/-- src/lib.rs line 12. -/
def MAX_DEPTH : Nat := 512

/-- src/lib.rs lines 14-19. -/
inductive ElfArch where
  | Elf32
  | Elf64
  | Unknown
deriving DecidableEq, Repr

/-- src/lib.rs lines 21-30. -/
inductive ElfMachine where
  | X86
  | X86_64
  | Arm32
  | Arm64
  | Mips
  | PowerPC
  | Unknown
deriving DecidableEq, Repr

/-- src/lib.rs lines 32-38. -/
inductive ElfType where
  | Static
  | Dynamic
  | Pie
  | Invalid
deriving DecidableEq, Repr

/-- src/lib.rs lines 40-45. -/
structure RlddRexInfo where
  arch : ElfArch
  elf_type : ElfType
  deps : List (String × String)
deriving DecidableEq, Repr

/-- Parsed ELF metadata as the core consumes it from the external goblin
parser: `header.e_type`, `header.e_machine`, `is_64`, `interpreter`,
presence of the dynamic section (`dynamic.is_some()`), `libraries`,
`rpaths`, `runpaths`. -/
structure Elf where
  e_type : Nat := 0
  e_machine : Nat := 0
  is_64 : Bool := false
  interpreter : Option String := none
  dynamic : Bool := false
  libraries : List String := []
  rpaths : List String := []
  runpaths : List String := []
deriving DecidableEq, Repr

/-- ELF header type constants (goblin `elf::header`). -/
def ET_EXEC : Nat := 2

/-- goblin `elf::header::ET_DYN`. -/
def ET_DYN : Nat := 3

/-- goblin machine constant `EM_386`. -/
def EM_386 : Nat := 3

/-- goblin machine constant `EM_X86_64`. -/
def EM_X86_64 : Nat := 62

/-- goblin machine constant `EM_ARM`. -/
def EM_ARM : Nat := 40

/-- goblin machine constant `EM_AARCH64`. -/
def EM_AARCH64 : Nat := 183

/-- goblin machine constant `EM_MIPS`. -/
def EM_MIPS : Nat := 8

/-- goblin machine constant `EM_PPC`. -/
def EM_PPC : Nat := 20

/-- src/lib.rs lines 56-69. -/
def ElfType.is_static (t : ElfType) : Bool := t == ElfType.Static

/-- src/lib.rs lines 60-62. -/
def ElfType.is_dynamic (t : ElfType) : Bool := t == ElfType.Dynamic

/-- src/lib.rs lines 63-65. -/
def ElfType.is_pie (t : ElfType) : Bool := t == ElfType.Pie

/-- src/lib.rs lines 66-68. -/
def ElfType.is_valid (t : ElfType) : Bool := !(t == ElfType.Invalid)

/-- src/lib.rs lines 71-89: link-type classification from the ELF header. -/
def get_elf_type (elf : Elf) : ElfType :=
  if elf.e_type == ET_EXEC then
    if elf.dynamic then ElfType.Dynamic else ElfType.Static
  else if elf.e_type == ET_DYN then
    if elf.interpreter.isSome then ElfType.Pie else ElfType.Dynamic
  else ElfType.Invalid

/-- src/lib.rs lines 91-101. -/
def machine_from_e_machine (m : Nat) : ElfMachine :=
  if m == EM_386 then ElfMachine.X86
  else if m == EM_X86_64 then ElfMachine.X86_64
  else if m == EM_ARM then ElfMachine.Arm32
  else if m == EM_AARCH64 then ElfMachine.Arm64
  else if m == EM_MIPS then ElfMachine.Mips
  else if m == EM_PPC then ElfMachine.PowerPC
  else ElfMachine.Unknown

/-- src/lib.rs lines 47-54 (`enable_ld_library_path` feature): word-size
comparison against the root binary's architecture.  Unused in the default
build modelled here; included for completeness. -/
def is_same_arch (arch : ElfArch) (sub_is_64 : Bool) : Bool :=
  match arch with
  | ElfArch.Elf32 => !sub_is_64
  | ElfArch.Elf64 => sub_is_64
  | ElfArch.Unknown => true

/-- The characters of the literal token replaced by `resolve_origin`. -/
def originPat : List Char := "$ORIGIN".data

/-- Rust `str::trim_start_matches("$ORIGIN")`: strips every leading
repetition of the token. -/
def trimStartMatchesOrigin : List Char → List Char
  | '$' :: 'O' :: 'R' :: 'I' :: 'G' :: 'I' :: 'N' :: rest => trimStartMatchesOrigin rest
  | l => l

/-- src/lib.rs lines 287-294: `$ORIGIN` substitution in an RPATH/RUNPATH
entry.  Note the source uses `Path::join` on the stripped remainder, so a
remainder that is itself absolute (the usual `$ORIGIN/...` case strips to
`/...`) replaces the parent directory entirely. -/
def resolve_origin (bin_path : String) (entry : String) : String :=
  if listIsPre originPat entry.data then
    pathJoin (ofChars ((parentChars bin_path.data).getD ['/']))
      (ofChars (trimStartMatchesOrigin entry.data))
  else entry

/- ---------------------------------------------------------------------
Filesystem abstraction.  The source performs ordinary blocking I/O; here
each primitive is a pure function supplied by the environment.  `readElf`
fuses `open_and_map` (src/lib.rs lines 296-300) with `goblin::Elf::parse`:
the source treats a failure of either identically (log and fall through),
so only the combined success/failure is observable.
--------------------------------------------------------------------- -/

/-- Abstract filesystem: the I/O primitives the source consumes.
`pathExists` is `Path::exists`, `isDir` is `Path::is_dir`, `isFile` is
`Path::is_file`, `canonical` is `fs::canonicalize` (`none` = error),
`metadata` is `fs::metadata` yielding the `(dev, ino)` identity pair,
`readFile` is `fs::read_to_string`, `globFiles` is glob-pattern expansion
(`none` = pattern error, `some` = matched entries with per-entry errors
already flattened away), and `readElf` is open + mmap + ELF parse. -/
structure FS where
  readElf : String → Option Elf := fun _ => none
  pathExists : String → Bool := fun _ => false
  isDir : String → Bool := fun _ => false
  isFile : String → Bool := fun _ => false
  canonical : String → Option String := fun _ => none
  metadata : String → Option (Nat × Nat) := fun _ => none
  readFile : String → Option String := fun _ => none
  globFiles : String → Option (List String) := fun _ => none

/-- Fixed path of the loader configuration file (src/lib.rs line 136). -/
def ldSoConfPath : String := "/etc/ld.so.conf"

/-- Fixed path of the musl path file (src/lib.rs line 243). -/
def muslConfPath : String := "/etc/ld-musl-x86_64.path"

/-- Characters of the literal "musl". -/
def muslPat : List Char := "musl".data

/-- Characters of the literal "include". -/
def includePat : List Char := "include".data

/-- Recursion bound for the loader-config `include` expansion.  The
source's `process_file` recursion (src/lib.rs lines 108-134) has no bound
of its own and diverges on a self-including config; the fuel makes the
embedding total and agrees with the source on every terminating run that
nests fewer than `includeFuel` levels of `include`. -/
def includeFuel : Nat := 1000

/-- One accepted config line that names a directory: include it only if it
exists, is a directory, and is new (src/lib.rs lines 124-129).  State is
`(collected, seen)`. -/
def confDirLine (fs : FS) (line : String) :
    List String × List String → List String × List String
  | (collected, seen) =>
    if fs.pathExists line && fs.isDir line && !(seen.contains line) then
      (collected ++ [line], line :: seen)
    else (collected, seen)

/-- src/lib.rs lines 108-134: recursive processing of a loader-config
file.  Non-empty non-comment lines are either `include <glob>` directives
(expand the pattern, recurse into each matched regular file; a bad pattern
is logged and skipped) or directory lines. -/
def process_file (fs : FS) : Nat → String →
    List String × List String → List String × List String
  | 0, _, acc => acc
  | fuel + 1, path, acc =>
    match fs.readFile path with
    | none => acc
    | some content =>
      (((linesOf content).map trimStr).filter
          (fun l => !(l == "") && !(listIsPre ['#'] l.data))).foldl
        (fun acc line =>
          match stripPre includePat line.data with
          | some rest =>
            let pattern := ofChars (trimChars rest)
            match fs.globFiles pattern with
            | some entries =>
              (entries.filter fs.isFile).foldl
                (fun acc e => process_file fs fuel e acc) acc
            | none => acc
          | none => confDirLine fs line acc)
        acc

/-- src/lib.rs lines 103-142: read `/etc/ld.so.conf` when present.  The
source returns `io::Result` but every path yields `Ok`, so the embedding
returns the collected directory list directly. -/
def read_ld_so_conf (fs : FS) : List String :=
  if fs.pathExists ldSoConfPath then
    (process_file fs includeFuel ldSoConfPath ([], [])).1
  else []

/-- src/lib.rs lines 144-217: architecture and machine specific default
multiarch directories (linux target: the solaris-only entries are
compiled out). -/
def default_dirs_for_arch_and_machine (elf_arch : ElfArch) (machine : ElfMachine) :
    List String :=
  let dirs : List String :=
    match elf_arch with
    | ElfArch.Elf32 => ["/lib", "/usr/lib", "/lib32", "/usr/lib32"]
    | ElfArch.Elf64 => ["/lib64", "/usr/lib64"]
    | ElfArch.Unknown => []
  let machine_dirs : List String :=
    match machine with
    | ElfMachine.PowerPC =>
      match elf_arch with
      | ElfArch.Elf32 => ["/lib/powerpc-linux-gnu", "/usr/lib/powerpc-linux-gnu"]
      | ElfArch.Elf64 => ["/lib/powerpc64-linux-gnu", "/usr/lib/powerpc64-linux-gnu"]
      | ElfArch.Unknown => []
    | ElfMachine.Mips =>
      match elf_arch with
      | ElfArch.Elf32 => ["/lib/mips-linux-gnu", "/usr/lib/mips-linux-gnu"]
      | ElfArch.Elf64 => ["/lib/mips64-linux-gnu", "/usr/lib/mips64-linux-gnu"]
      | ElfArch.Unknown => []
    | ElfMachine.Arm32 => ["/lib/arm-linux-gnueabihf", "/usr/lib/arm-linux-gnueabihf"]
    | ElfMachine.Arm64 => ["/lib/aarch64-linux-gnu", "/usr/lib/aarch64-linux-gnu"]
    | ElfMachine.X86 =>
      match elf_arch with
      | ElfArch.Elf32 => ["/lib/i386-linux-gnu", "/usr/lib/i386-linux-gnu"]
      | _ => []
    | ElfMachine.X86_64 =>
      match elf_arch with
      | ElfArch.Elf64 => ["/lib/x86_64-linux-gnu", "/usr/lib/x86_64-linux-gnu"]
      | ElfArch.Elf32 => ["/lib/i386-linux-gnu", "/usr/lib/i386-linux-gnu"]
      | ElfArch.Unknown => []
    | ElfMachine.Unknown => []
  dirs ++ machine_dirs

/-- One iteration of the dedup loop of `build_search_dirs` (src/lib.rs
lines 264-269): canonicalize the directory (keeping the original on
failure) and push it unless its canonical identity was already seen.
State is `(uniq, seen)`. -/
def canonStep (fs : FS) (acc : List String × List String) (d : String) :
    List String × List String :=
  let path := (fs.canonical d).getD d
  if acc.2.contains path then acc else (acc.1 ++ [path], path :: acc.2)

/-- src/lib.rs lines 262-271 (tail of `build_search_dirs`): canonicalize
each directory and keep only the first occurrence of each canonical
identity. -/
def canonDedup (fs : FS) (dirs : List String) : List String :=
  (dirs.foldl (canonStep fs) ([], [])).1

/-- src/lib.rs lines 219-272: compose the global search-directory list for
a binary (default build: the LD_LIBRARY_PATH block is feature-gated out). -/
def build_search_dirs (fs : FS) (elf : Elf) (arch : ElfArch) (machine : ElfMachine) :
    List String :=
  let dirs : List String :=
    ["/lib", "/usr/lib", "/usr/local/lib", "/usr/libexec", "/libexec"]
  let is_musl :=
    match elf.interpreter with
    | some interp => hasSub muslPat interp.data
    | none => false
  let dirs :=
    if is_musl then
      dirs ++
        (if fs.pathExists muslConfPath then
          match fs.readFile muslConfPath with
          | some content =>
            ((linesOf content).map trimStr).filter (fun t => !(t == ""))
          | none => []
        else [])
    else
      dirs ++ read_ld_so_conf fs ++ default_dirs_for_arch_and_machine arch machine
  canonDedup fs dirs

/-- src/lib.rs lines 274-285: locate a library by scanning the global
search directories and then the binary's resolved RPATH/RUNPATH
directories; the first directory whose join with the name exists wins. -/
def find_library (fs : FS) (lib : String) (search_dirs : List String)
    (paths : List String) : Option String :=
  (search_dirs ++ paths).findSome? fun dir =>
    let candidate := pathJoin dir lib
    if fs.pathExists candidate then some candidate else none

/-- src/lib.rs lines 302-308. -/
def empty_info : RlddRexInfo :=
  { arch := ElfArch.Unknown, elf_type := ElfType.Invalid, deps := [] }

/-- src/lib.rs line 312. -/
def lib_names : List String := ["lib", "lib64", "libs"]

/-- src/lib.rs lines 310-338: binary-adjacent library directories — the
resolved parent of the binary, its `lib`/`lib64`/`libs` subdirectories,
and, when the parent is literally named `bin`, the same three
subdirectories of the grandparent. -/
def extra_lib_dirs_for_bin (fs : FS) (path : String) : List String :=
  let real_bin := (fs.canonical path).getD path
  match parentChars real_bin.data with
  | none => []
  | some binDirL =>
    let bin_dir := ofChars binDirL
    let dirs := [bin_dir] ++ lib_names.map (fun lib => pathJoin bin_dir lib)
    if ((fileName bin_dir).map (fun f => f == "bin")).getD false then
      match parentChars bin_dir.data with
      | some par =>
        dirs ++ lib_names.map (fun lib => pathJoin (ofChars par) lib)
      | none => dirs
    else dirs

/- ---------------------------------------------------------------------
The recursive walk (src/lib.rs lines 340-402) and the entry point
(lines 404-468).  The mutable state threaded by reference in the source is
made explicit.  The source recursion increases `d` and stops once
`d > MAX_DEPTH`; the embedding recurses structurally on the remaining
budget `gas = MAX_DEPTH + 1 - d`, which is exactly the number of levels
the guard still allows, so `inner` below agrees with the source for
every `d`.
--------------------------------------------------------------------- -/

/-- Mutable resolver state of the source walk: visited `(dev, ino)`
identities, seen library names, and the ordered result sequence. -/
structure WalkState where
  visited : List (Nat × Nat) := []
  seen : List String := []
  res : List (String × String) := []
deriving DecidableEq, Repr

/-- Body of the per-dependency loop of `inner` (src/lib.rs lines 373-399):
skip names already seen, otherwise mark seen, locate the file, recurse
into it when it parses as ELF (`recur` is the walk at the next depth), and
append the `(name, status)` record. -/
def depStep (fs : FS) (dirs : List String)
    (recur : String → Elf → WalkState → WalkState) (paths : List String)
    (st : WalkState) (dep : String) : WalkState :=
  if st.seen.contains dep then st
  else
    let st1 : WalkState := { st with seen := dep :: st.seen }
    match find_library fs dep dirs paths with
    | none => { st1 with res := st1.res ++ [(dep, "not found")] }
    | some found =>
      match fs.readElf found with
      | none => { st1 with res := st1.res ++ [(dep, found)] }
      | some s_elf =>
        let st2 := recur found s_elf st1
        { st2 with res := st2.res ++ [(dep, found)] }

/-- The per-binary dependency loop: fold `depStep` over the declared
`NEEDED` names in declaration order. -/
def processDeps (fs : FS) (dirs : List String)
    (recur : String → Elf → WalkState → WalkState) (paths : List String)
    (deps : List String) (st : WalkState) : WalkState :=
  deps.foldl (depStep fs dirs recur paths) st

/-- src/lib.rs lines 340-402, indexed by the remaining depth budget:
`gas = 0` is the exhausted depth guard (`d > MAX_DEPTH`: log and return,
preserving the state); otherwise compute the `(dev, ino)` identity
(inaccessible metadata: log and return), return at once on a revisit,
record the identity, resolve the RPATH/RUNPATH entries, and walk the
needed libraries. -/
def innerGas (fs : FS) (dirs : List String) :
    Nat → String → Elf → WalkState → WalkState
  | 0, _, _, st => st
  | gas + 1, path, elf, st =>
    match fs.metadata path with
    | none => st
    | some key =>
      if st.visited.contains key then st
      else
        let st1 : WalkState := { st with visited := key :: st.visited }
        let paths := (elf.rpaths ++ elf.runpaths).map (resolve_origin path)
        processDeps fs dirs (fun p e s => innerGas fs dirs gas p e s) paths
          elf.libraries st1

/-- src/lib.rs lines 340-402 with the source's depth argument `d`: the
guard admits exactly `MAX_DEPTH + 1 - d` further levels (zero iff
`d > MAX_DEPTH`).  The source's `io::Result` return is always `Ok`, so the
embedding returns the state directly.  The `arch` argument is unused in
the default build (the cross-arch check is feature-gated). -/
def inner (fs : FS) (path : String) (elf : Elf) (dirs : List String)
    (_arch : ElfArch) (d : Nat) (st : WalkState) : WalkState :=
  innerGas fs dirs (MAX_DEPTH + 1 - d) path elf st

/-- src/lib.rs lines 428-447: the initial walk state.  When the root
binary's interpreter names a musl runtime, the interpreter's file name and
resolved path are pre-seeded as the first record and the first seen
name. -/
def init_state (fs : FS) (elf : Elf) : WalkState :=
  match elf.interpreter with
  | some interp =>
    if hasSub muslPat interp.data then
      let resolved_interp :=
        if fs.pathExists interp then (fs.canonical interp).getD interp else interp
      let lib_name := (fileName interp).getD interp
      { visited := [], seen := [lib_name], res := [(lib_name, resolved_interp)] }
    else {}
  | none => {}

/-- src/lib.rs lines 449-450: the search-path list the walk actually uses —
the canonicalized, de-duplicated global list extended with the
binary-adjacent directories. -/
def final_search_dirs (fs : FS) (path : String) (elf : Elf) (arch : ElfArch)
    (machine : ElfMachine) : List String :=
  build_search_dirs fs elf arch machine ++ extra_lib_dirs_for_bin fs path

/-- src/lib.rs lines 404-468: the top-level entry point.  A failure to
open, map or parse the root target degrades to `empty_info`; the source's
`io::Result` is always `Ok`, so the embedding returns the result value
directly. -/
def rldd_rex (fs : FS) (path : String) : RlddRexInfo :=
  match fs.readElf path with
  | none => empty_info
  | some elf =>
    let arch := if elf.is_64 then ElfArch.Elf64 else ElfArch.Elf32
    let machine := machine_from_e_machine elf.e_machine
    let elf_type := get_elf_type elf
    let search_dirs := final_search_dirs fs path elf arch machine
    let final := inner fs path elf search_dirs arch 0 (init_state fs elf)
    { arch := arch, elf_type := elf_type, deps := final.res }

/- ---------------------------------------------------------------------
Invariants of the walk.  `GoodStep f` packages the facts every step of the
walk preserves: the seen-name and visited-identity sets only grow, the
result sequence grows only by appending, and each newly appended record
carries a name that was unseen before the step and seen after it, the new
names being pairwise distinct.
--------------------------------------------------------------------- -/

/-- Membership characterization of `List.contains` used by the source's
`HashSet` checks. -/
theorem contains_iff {α : Type} [BEq α] [LawfulBEq α] (l : List α) (a : α) :
    l.contains a = true ↔ a ∈ l := by
  simp [List.contains]

/-- The step invariant of the resolver walk. -/
def GoodStep (f : WalkState → WalkState) : Prop :=
  ∀ st : WalkState,
    (∀ n, n ∈ st.seen → n ∈ (f st).seen) ∧
    (∀ k, k ∈ st.visited → k ∈ (f st).visited) ∧
    ∃ t, (f st).res = st.res ++ t ∧ (t.map Prod.fst).Nodup ∧
      ∀ n, n ∈ t.map Prod.fst → ¬ n ∈ st.seen ∧ n ∈ (f st).seen

/-- The identity step is good. -/
theorem goodStep_id : GoodStep (fun st => st) :=
  fun _ => ⟨fun _ h => h, fun _ h => h, [], by simp⟩

/-- Good steps compose. -/
theorem GoodStep.comp {f g : WalkState → WalkState}
    (hf : GoodStep f) (hg : GoodStep g) : GoodStep (fun st => g (f st)) := by
  intro st
  obtain ⟨sf, vf, tf, rf, ndf, nf⟩ := hf st
  obtain ⟨sg, vg, tg, rg, ndg, ng⟩ := hg (f st)
  refine ⟨fun n h => sg n (sf n h), fun k h => vg k (vf k h),
    tf ++ tg, ?_, ?_, ?_⟩
  · rw [rg, rf, List.append_assoc]
  · rw [List.map_append]
    refine List.Nodup.append ndf ndg ?_
    intro n hnf hng
    exact (ng n hng).1 (nf n hnf).2
  · intro n hn
    rw [List.map_append, List.mem_append] at hn
    rcases hn with h | h
    · exact ⟨(nf n h).1, sg n (nf n h).2⟩
    · exact ⟨fun hmem => (ng n h).1 (sf n hmem), (ng n h).2⟩

/-- One dependency step is good whenever the recursive walk it invokes
is. -/
theorem depStep_good (fs : FS) (dirs : List String)
    (recur : String → Elf → WalkState → WalkState)
    (hrec : ∀ p e, GoodStep (fun st => recur p e st)) (paths : List String)
    (dep : String) : GoodStep (fun st => depStep fs dirs recur paths st dep) := by
  intro st
  dsimp only
  unfold depStep
  by_cases hc : st.seen.contains dep = true
  · rw [if_pos hc]
    exact ⟨fun _ h => h, fun _ h => h, [], by simp⟩
  · have hdep : ¬ dep ∈ st.seen := fun hmem => hc ((contains_iff _ _).2 hmem)
    rw [if_neg hc]
    cases hfind : find_library fs dep dirs paths with
    | none =>
      dsimp only
      refine ⟨fun n h => List.mem_cons_of_mem _ h, fun _ h => h,
        [(dep, "not found")], rfl, by simp, ?_⟩
      intro n hn
      simp only [List.map_cons, List.map_nil, List.mem_singleton] at hn
      subst hn
      exact ⟨hdep, List.mem_cons_self _ _⟩
    | some found =>
      dsimp only
      cases hread : fs.readElf found with
      | none =>
        refine ⟨fun n h => List.mem_cons_of_mem _ h, fun _ h => h,
          [(dep, found)], rfl, by simp, ?_⟩
        intro n hn
        simp only [List.map_cons, List.map_nil, List.mem_singleton] at hn
        subst hn
        exact ⟨hdep, List.mem_cons_self _ _⟩
      | some s_elf =>
        dsimp only
        obtain ⟨sr, vr, tr, rr, ndr, nr⟩ :=
          hrec found s_elf { st with seen := dep :: st.seen }
        refine ⟨fun n h => sr n (List.mem_cons_of_mem _ h), fun k h => vr k h,
          tr ++ [(dep, found)], ?_, ?_, ?_⟩
        · rw [rr]
          simp [List.append_assoc]
        · rw [List.map_append]
          refine List.Nodup.append ndr (by simp) ?_
          intro n hn1 hn2
          simp only [List.map_cons, List.map_nil, List.mem_singleton] at hn2
          subst hn2
          exact (nr n hn1).1 (List.mem_cons_self _ _)
        · intro n hn
          rw [List.map_append, List.mem_append] at hn
          rcases hn with h | h
          · refine ⟨fun hmem => (nr n h).1 (List.mem_cons_of_mem _ hmem),
              (nr n h).2⟩
          · simp only [List.map_cons, List.map_nil, List.mem_singleton] at h
            subst h
            exact ⟨hdep, sr n (List.mem_cons_self _ _)⟩

/-- The dependency loop is good whenever the recursive walk it invokes
is. -/
theorem processDeps_good (fs : FS) (dirs : List String)
    (recur : String → Elf → WalkState → WalkState)
    (hrec : ∀ p e, GoodStep (fun st => recur p e st)) (paths : List String)
    (deps : List String) :
    GoodStep (fun st => processDeps fs dirs recur paths deps st) := by
  induction deps with
  | nil =>
    intro st
    exact ⟨fun _ h => h, fun _ h => h, [], by simp [processDeps]⟩
  | cons dep rest ih =>
    intro st
    have hcomp := GoodStep.comp (depStep_good fs dirs recur hrec paths dep) ih st
    simpa [processDeps] using hcomp

/-- Every level of the walk is good. -/
theorem innerGas_good (fs : FS) (dirs : List String) :
    ∀ (gas : Nat) (path : String) (elf : Elf),
      GoodStep (fun st => innerGas fs dirs gas path elf st) := by
  intro gas
  induction gas with
  | zero =>
    intro path elf st
    exact ⟨fun _ h => h, fun _ h => h, [], by simp [innerGas]⟩
  | succ gas ih =>
    intro path elf st
    simp only [innerGas]
    cases hm : fs.metadata path with
    | none => exact ⟨fun _ h => h, fun _ h => h, [], by simp⟩
    | some key =>
      dsimp only
      by_cases hv : st.visited.contains key = true
      · rw [if_pos hv]
        exact ⟨fun _ h => h, fun _ h => h, [], by simp⟩
      · rw [if_neg hv]
        obtain ⟨s, v, t, r, nd, nn⟩ :=
          processDeps_good fs dirs _ (fun p e => ih p e)
            ((elf.rpaths ++ elf.runpaths).map (resolve_origin path)) elf.libraries
            { st with visited := key :: st.visited }
        exact ⟨s, fun k hk => v k (List.mem_cons_of_mem _ hk), t, r, nd, nn⟩

/-- The source-level walk is good. -/
theorem inner_good (fs : FS) (path : String) (elf : Elf) (dirs : List String)
    (arch : ElfArch) (d : Nat) :
    GoodStep (fun st => inner fs path elf dirs arch d st) :=
  innerGas_good fs dirs (MAX_DEPTH + 1 - d) path elf

/-- The dedup loop of `build_search_dirs` never pushes an entry whose
canonical identity is already recorded, so its output has no duplicates. -/
theorem canonDedup_aux (fs : FS) :
    ∀ (dirs : List String) (acc : List String × List String),
      acc.1.Nodup → (∀ x, x ∈ acc.1 → x ∈ acc.2) →
      (dirs.foldl (canonStep fs) acc).1.Nodup := by
  intro dirs
  induction dirs with
  | nil =>
    intro acc h _
    simpa using h
  | cons d rest ih =>
    intro acc hnd hsub
    rw [List.foldl_cons]
    by_cases hc : acc.2.contains ((fs.canonical d).getD d) = true
    · have hcm : (fs.canonical d).getD d ∈ acc.2 := (contains_iff _ _).1 hc
      have hstep : canonStep fs acc d = acc := by
        simp [canonStep, hcm]
      rw [hstep]
      exact ih acc hnd hsub
    · have hpath : (fs.canonical d).getD d ∉ acc.2 :=
        fun hm => hc ((contains_iff _ _).2 hm)
      have hstep : canonStep fs acc d
          = (acc.1 ++ [(fs.canonical d).getD d], (fs.canonical d).getD d :: acc.2) := by
        simp [canonStep, hpath]
      rw [hstep]
      apply ih
      · refine List.Nodup.append hnd (by simp) ?_
        intro x hx1 hx2
        simp only [List.mem_singleton] at hx2
        subst hx2
        exact hpath (hsub _ hx1)
      · intro x hx
        rcases List.mem_append.1 hx with h | h
        · exact List.mem_cons_of_mem _ (hsub x h)
        · simp only [List.mem_singleton] at h
          subst h
          exact List.mem_cons_self _ _

/-- The canonicalize-and-dedup pass yields a list without duplicates. -/
theorem canonDedup_nodup (fs : FS) (dirs : List String) :
    (canonDedup fs dirs).Nodup :=
  canonDedup_aux fs dirs ([], []) (by simp) (by simp)

/-- Revisit guard: at any remaining budget, a binary whose `(dev, ino)`
identity is already in the visited set is returned from immediately. -/
theorem innerGas_revisit (fs : FS) (dirs : List String) (gas : Nat)
    (path : String) (elf : Elf) (st : WalkState) (key : Nat × Nat)
    (hm : fs.metadata path = some key) (hv : key ∈ st.visited) :
    innerGas fs dirs gas path elf st = st := by
  cases gas with
  | zero => rfl
  | succ gas => simp [innerGas, hm, hv]

/-- The initial walk state has pairwise-distinct record names, all of them
already marked seen. -/
theorem init_state_facts (fs : FS) (elf : Elf) :
    (((init_state fs elf).res.map Prod.fst).Nodup) ∧
      ∀ n, n ∈ (init_state fs elf).res.map Prod.fst → n ∈ (init_state fs elf).seen := by
  unfold init_state
  cases elf.interpreter with
  | none => simp
  | some interp =>
    by_cases h : hasSub muslPat interp.data = true
    · simp [h]
    · simp [h]

/-- The record names collected by the walk stay pairwise distinct whenever
they start out pairwise distinct and covered by the seen set. -/
theorem walk_res_nodup (fs : FS) (path : String) (elf : Elf)
    (dirs : List String) (arch : ElfArch) (d : Nat) (st : WalkState)
    (h1 : (st.res.map Prod.fst).Nodup)
    (h2 : ∀ n, n ∈ st.res.map Prod.fst → n ∈ st.seen) :
    ((inner fs path elf dirs arch d st).res.map Prod.fst).Nodup := by
  obtain ⟨-, -, t, hres, hnd, hn⟩ := inner_good fs path elf dirs arch d st
  rw [hres, List.map_append]
  refine List.Nodup.append h1 hnd ?_
  intro n ha hb
  exact (hn n hb).1 (h2 n ha)

/-- Unfolding of `rldd_rex` on a parseable root target. -/
theorem rldd_rex_deps_eq (fs : FS) (path : String) (elf : Elf)
    (helf : fs.readElf path = some elf) :
    (rldd_rex fs path).deps
      = (inner fs path elf
          (final_search_dirs fs path elf
            (if elf.is_64 then ElfArch.Elf64 else ElfArch.Elf32)
            (machine_from_e_machine elf.e_machine))
          (if elf.is_64 then ElfArch.Elf64 else ElfArch.Elf32) 0
          (init_state fs elf)).res := by
  unfold rldd_rex
  rw [helf]

/- ---------------------------------------------------------------------
Claims.
--------------------------------------------------------------------- -/

/-- The filesystem in which only the two copies of `libfoo.so` exist:
one in the global search directory `/usr/lib` and one in the RPATH
directory `/opt/app/lib`. -/
def fsC1 : FS :=
  { pathExists := fun p => p == "/usr/lib/libfoo.so" || p == "/opt/app/lib/libfoo.so" }

/-- C1: the claim says a library present both in an RPATH/RUNPATH
directory of the binary and in a global search directory is reported from
the RPATH/RUNPATH directory.  The source's `find_library` scans
`search_dirs` first and only then the resolved RPATH/RUNPATH `paths`
(src/lib.rs lines 275-276), so with `libfoo.so` present in both the
global `/usr/lib` and the RPATH directory `/opt/app/lib`, the global copy
is the one reported — the claim fails on the code. -/
theorem c1_global_scanned_before_rpath :
    find_library fsC1 "libfoo.so" ["/usr/lib"] ["/opt/app/lib"]
        = some "/usr/lib/libfoo.so" ∧
      find_library fsC1 "libfoo.so" ["/usr/lib"] ["/opt/app/lib"]
        ≠ some "/opt/app/lib/libfoo.so" := by
  decide

/-- C2: the claim says `$ORIGIN/../lib` for a binary at `/opt/app/bin/app`
resolves to `/opt/app/lib`.  The source joins the binary's parent
directory with the stripped remainder via `Path::join`, and the remainder
`/../lib` is absolute, so the join discards the parent directory entirely:
the entry resolves to `/../lib` (which names `/lib`), not to
`/opt/app/lib` — the claim fails on the code. -/
theorem c2_origin_join_discards_parent :
    resolve_origin "/opt/app/bin/app" "$ORIGIN/../lib" = "/../lib" ∧
      resolve_origin "/opt/app/bin/app" "$ORIGIN/../lib" ≠ "/opt/app/lib" := by
  decide

/-- C6: link-type classification — an EXEC header is Dynamic when a
dynamic section is present and Static otherwise; a DYN header is Pie when
an interpreter is present and Dynamic otherwise; every other header type
is Invalid. -/
theorem c6_link_type_classification (e : Elf) :
    (e.e_type = ET_EXEC →
        get_elf_type e = if e.dynamic then ElfType.Dynamic else ElfType.Static) ∧
      (e.e_type = ET_DYN →
        get_elf_type e = if e.interpreter.isSome then ElfType.Pie else ElfType.Dynamic) ∧
      (e.e_type ≠ ET_EXEC → e.e_type ≠ ET_DYN → get_elf_type e = ElfType.Invalid) := by
  unfold get_elf_type
  refine ⟨fun h => ?_, fun h => ?_, fun h1 h2 => ?_⟩
  · simp [h]
  · simp [h, ET_EXEC, ET_DYN]
  · simp [beq_iff_eq, h1, h2]

/-- Witness for C6 at the three concrete header types. -/
theorem c6_witness :
    get_elf_type { e_type := 2, dynamic := true } = ElfType.Dynamic ∧
      get_elf_type { e_type := 3, interpreter := some "/lib64/ld-linux-x86-64.so.2" }
        = ElfType.Pie ∧
      get_elf_type { e_type := 4 } = ElfType.Invalid :=
  ⟨(c6_link_type_classification _).1 rfl,
    (c6_link_type_classification _).2.1 rfl,
    (c6_link_type_classification _).2.2 (by decide) (by decide)⟩

/-- C8: when the root target cannot be opened, mapped or parsed as ELF,
the resolution still succeeds and yields Unknown architecture, Invalid
link type and no dependencies (the source returns `Ok(empty_info())`). -/
theorem c8_graceful_degradation (fs : FS) (path : String)
    (h : fs.readElf path = none) :
    (rldd_rex fs path).arch = ElfArch.Unknown ∧
      (rldd_rex fs path).elf_type = ElfType.Invalid ∧
      (rldd_rex fs path).deps = [] := by
  simp [rldd_rex, h, empty_info]

/-- Witness for C8: the empty filesystem, where nothing can be opened. -/
theorem c8_witness :
    (rldd_rex {} "/no/such/file").arch = ElfArch.Unknown ∧
      (rldd_rex {} "/no/such/file").elf_type = ElfType.Invalid ∧
      (rldd_rex {} "/no/such/file").deps = [] :=
  c8_graceful_degradation {} "/no/such/file" rfl

/-- C9: the two termination guards of the walk — a call at depth beyond
the ceiling returns its state unchanged (preserving already-collected
dependencies), a call on a file whose `(dev, ino)` identity is already
visited returns its state unchanged, and a fresh visit within the depth
ceiling records the identity in the visited set.  Together with the
finiteness of each argument these make the embedded `inner` a total
function. -/
theorem c9_termination_guards (fs : FS) (path : String) (elf : Elf)
    (dirs : List String) (arch : ElfArch) (d : Nat) (st : WalkState) :
    (d > MAX_DEPTH → inner fs path elf dirs arch d st = st) ∧
      (∀ key, fs.metadata path = some key → key ∈ st.visited →
        inner fs path elf dirs arch d st = st) ∧
      (∀ key, fs.metadata path = some key → key ∉ st.visited → d ≤ MAX_DEPTH →
        key ∈ (inner fs path elf dirs arch d st).visited) := by
  refine ⟨fun hd => ?_, fun key hm hv => ?_, fun key hm hv hd => ?_⟩
  · have h0 : MAX_DEPTH + 1 - d = 0 := Nat.sub_eq_zero_of_le hd
    unfold inner
    rw [h0]
    rfl
  · exact innerGas_revisit fs dirs _ path elf st key hm hv
  · have hpos : 0 < MAX_DEPTH + 1 - d := Nat.sub_pos_of_lt (Nat.lt_succ_of_le hd)
    obtain ⟨g, hg⟩ := Nat.exists_eq_succ_of_ne_zero (Nat.pos_iff_ne_zero.1 hpos)
    unfold inner
    rw [hg]
    simp only [innerGas, hm]
    have hvc : ¬ st.visited.contains key = true :=
      fun hc => hv ((contains_iff _ _).1 hc)
    rw [if_neg hvc]
    obtain ⟨-, v, -⟩ :=
      processDeps_good fs dirs (fun p e s => innerGas fs dirs g p e s)
        (fun p e => innerGas_good fs dirs g p e)
        ((elf.rpaths ++ elf.runpaths).map (resolve_origin path)) elf.libraries
        { st with visited := key :: st.visited }
    exact v key (List.mem_cons_self _ _)

/-- Filesystem for the C9 witness: `/x` has identity `(7, 9)`. -/
def fs9 : FS := { metadata := fun p => if p == "/x" then some (7, 9) else none }

/-- Walk state for the C9 witness: `(7, 9)` already visited. -/
def st9 : WalkState := { visited := [(7, 9)] }

/-- Elf value for the C9 witness. -/
def elf9 : Elf := { e_type := 2, dynamic := true, libraries := ["libc.so.6"] }

/-- Witness for C9: depth guard at depth 600, revisit guard on an already
visited identity, and identity insertion on a fresh visit. -/
theorem c9_witness :
    inner fs9 "/x" elf9 [] ElfArch.Unknown 600 st9 = st9 ∧
      inner fs9 "/x" elf9 [] ElfArch.Unknown 0 st9 = st9 ∧
      (7, 9) ∈ (inner fs9 "/x" elf9 [] ElfArch.Unknown 0 {}).visited :=
  ⟨(c9_termination_guards fs9 "/x" elf9 [] ElfArch.Unknown 600 st9).1 (by decide),
    (c9_termination_guards fs9 "/x" elf9 [] ElfArch.Unknown 0 st9).2.1
      (7, 9) rfl (by decide),
    (c9_termination_guards fs9 "/x" elf9 [] ElfArch.Unknown 0 {}).2.2
      (7, 9) rfl (by decide) (by decide)⟩

/-- Root binary of the C3 counterexample: needs `libA.so`. -/
def elfR3 : Elf := { e_type := 2, is_64 := true, dynamic := true, libraries := ["libA.so"] }

/-- `libA.so` of the C3 counterexample: needs `libB.so`. -/
def elfA3 : Elf := { e_type := 3, is_64 := true, dynamic := true, libraries := ["libB.so"] }

/-- `libB.so` of the C3 counterexample: no further needs. -/
def elfB3 : Elf := { e_type := 3, is_64 := true, dynamic := true }

/-- Filesystem of the C3 counterexample: root at `/r`, both libraries in
`/lib`, distinct `(dev, ino)` identities. -/
def fs3 : FS :=
  { readElf := fun p =>
      if p == "/r" then some elfR3
      else if p == "/lib/libA.so" then some elfA3
      else if p == "/lib/libB.so" then some elfB3
      else none,
    pathExists := fun p => p == "/lib/libA.so" || p == "/lib/libB.so",
    metadata := fun p =>
      if p == "/r" then some (1, 1)
      else if p == "/lib/libA.so" then some (1, 2)
      else if p == "/lib/libB.so" then some (1, 3)
      else none }

/-- C3 counterexample: the root needs `libA.so` which needs `libB.so`;
the claim says the parent record `libA.so` appears before the child record
`libB.so`, but the walk appends each record only after returning from the
recursion into it, so the child `libB.so` is listed first. -/
theorem c3_counterexample :
    (rldd_rex fs3 "/r").deps
      = [("libB.so", "/lib/libB.so"), ("libA.so", "/lib/libA.so")] := by
  decide

/-- C3 (amended): the record of a resolved dependency that itself parses
as ELF is appended only after every record produced by recursing into it
(post-order), and before the records of its later siblings, which are
processed in declared NEEDED order. -/
theorem c3_parent_record_after_children (fs : FS) (dirs : List String)
    (arch : ElfArch) (d : Nat) (paths : List String) (st : WalkState)
    (dep : String) (rest : List String) (found : String) (s_elf : Elf)
    (hseen : st.seen.contains dep = false)
    (hfind : find_library fs dep dirs paths = some found)
    (hread : fs.readElf found = some s_elf) :
    ∃ tail,
      (processDeps fs dirs (fun p e s => inner fs p e dirs arch (d + 1) s) paths
          (dep :: rest) st).res
        = (inner fs found s_elf dirs arch (d + 1)
              { st with seen := dep :: st.seen }).res
            ++ [(dep, found)] ++ tail := by
  have hmem : dep ∉ st.seen :=
    fun hm => by rw [(contains_iff _ _).2 hm] at hseen; cases hseen
  have hstep :
      depStep fs dirs (fun p e s => inner fs p e dirs arch (d + 1) s) paths st dep
        = { inner fs found s_elf dirs arch (d + 1) { st with seen := dep :: st.seen } with
            res := (inner fs found s_elf dirs arch (d + 1)
                { st with seen := dep :: st.seen }).res ++ [(dep, found)] } := by
    simp [depStep, hmem, hfind, hread]
  obtain ⟨-, -, t, hres, -, -⟩ :=
    processDeps_good fs dirs (fun p e s => inner fs p e dirs arch (d + 1) s)
      (fun p e => inner_good fs p e dirs arch (d + 1)) paths rest
      (depStep fs dirs (fun p e s => inner fs p e dirs arch (d + 1) s) paths st dep)
  refine ⟨t, ?_⟩
  have hfold :
      processDeps fs dirs (fun p e s => inner fs p e dirs arch (d + 1) s) paths
          (dep :: rest) st
        = processDeps fs dirs (fun p e s => inner fs p e dirs arch (d + 1) s) paths
            rest
            (depStep fs dirs (fun p e s => inner fs p e dirs arch (d + 1) s) paths
              st dep) := by
    simp [processDeps]
  rw [hfold, hres, hstep]

/-- Witness for the amended C3 at a concrete state of the fs3 walk. -/
theorem c3_witness :
    ∃ tail,
      (processDeps fs3 ["/lib"] (fun p e s => inner fs3 p e ["/lib"] ElfArch.Elf64 1 s)
          [] ["libA.so"] {}).res
        = (inner fs3 "/lib/libA.so" elfA3 ["/lib"] ElfArch.Elf64 1
              { visited := [], seen := ["libA.so"], res := [] }).res
            ++ [("libA.so", "/lib/libA.so")] ++ tail :=
  c3_parent_record_after_children fs3 ["/lib"] ElfArch.Elf64 0 [] {} "libA.so" []
    "/lib/libA.so" elfA3 rfl (by decide) (by decide)

/-- Root binary of the C4 counterexample: needs `libX.so`. -/
def elfR4 : Elf := { e_type := 2, is_64 := true, dynamic := true, libraries := ["libX.so"] }

/-- Filesystem of the C4 counterexample: `libX.so` exists at
`/lib/libX.so` but cannot be opened/mapped/parsed as ELF (`readElf`
fails on it). -/
def fs4 : FS :=
  { readElf := fun p => if p == "/r" then some elfR4 else none,
    pathExists := fun p => p == "/lib/libX.so",
    metadata := fun p => if p == "/r" then some (1, 1) else none }

/-- C4 counterexample: the claim says a located-but-unparsable dependency
is recorded with a NotFound-equivalent status; the code instead records
the resolved path `/lib/libX.so` as the status. -/
theorem c4_counterexample :
    (rldd_rex fs4 "/r").deps = [("libX.so", "/lib/libX.so")] := by
  decide

/-- C4 (amended): a dependency whose candidate file is found by the scan
but cannot be opened, mapped or parsed as ELF is recorded with its
resolved path as its status (it is reported as resolved); the walk does
not recurse into it, and the failure is absorbed rather than
propagated. -/
theorem c4_unreadable_dep_reported_resolved (fs : FS) (dirs : List String)
    (recur : String → Elf → WalkState → WalkState) (paths : List String)
    (st : WalkState) (dep : String) (rest : List String) (found : String)
    (hseen : st.seen.contains dep = false)
    (hfind : find_library fs dep dirs paths = some found)
    (hread : fs.readElf found = none) :
    processDeps fs dirs recur paths (dep :: rest) st
      = processDeps fs dirs recur paths rest
          { st with seen := dep :: st.seen, res := st.res ++ [(dep, found)] } := by
  have hmem : dep ∉ st.seen :=
    fun hm => by rw [(contains_iff _ _).2 hm] at hseen; cases hseen
  simp [processDeps, depStep, hmem, hfind, hread]

/-- Witness for the amended C4 at a concrete state of the fs4 walk. -/
theorem c4_witness :
    processDeps fs4 ["/lib"] (fun _ _ s => s) [] ["libX.so"] {}
      = processDeps fs4 ["/lib"] (fun _ _ s => s) [] []
          { visited := [], seen := ["libX.so"], res := [("libX.so", "/lib/libX.so")] } :=
  c4_unreadable_dep_reported_resolved fs4 ["/lib"] (fun _ _ s => s) [] {} "libX.so"
    [] "/lib/libX.so" rfl (by decide) (by decide)

/-- Root binary of the C5 counterexample: a 64-bit x86-64 executable
living in `/usr/lib`. -/
def elf5 : Elf := { e_type := 2, e_machine := 62, is_64 := true, dynamic := true }

/-- C5 counterexample: for a binary at `/usr/lib/app` (on the empty
filesystem, where canonicalization fails and keeps every path), the final
search-path list used by the resolver contains `/usr/lib` twice — once
from the de-duplicated global list and once from the binary-adjacent
directories appended afterwards — so the final list is not de-duplicated
by canonical identity. -/
theorem c5_counterexample :
    (final_search_dirs {} "/usr/lib/app" elf5 ElfArch.Elf64 ElfMachine.X86_64).count
      "/usr/lib" = 2 := by
  decide

/-- C5 (amended): only the global list built by `build_search_dirs` is
canonicalized and de-duplicated by canonical identity (first occurrence
kept); the binary-adjacent directories of `extra_lib_dirs_for_bin` are
appended to it afterwards without canonicalization or de-duplication, so
the final list may repeat a directory. -/
theorem c5_global_list_nodup (fs : FS) (elf : Elf) (arch : ElfArch)
    (machine : ElfMachine) :
    (build_search_dirs fs elf arch machine).Nodup := by
  unfold build_search_dirs
  exact canonDedup_nodup fs _

/-- C7: first-resolution-wins uniqueness — every library name appears at
most once in the final report, whatever the filesystem and target: each
record is appended at the point its name is first marked seen and the
name is never appended again. -/
theorem c7_first_resolution_wins (fs : FS) (path : String) :
    ((rldd_rex fs path).deps.map Prod.fst).Nodup := by
  cases h : fs.readElf path with
  | none =>
    have : (rldd_rex fs path).deps = [] := by simp [rldd_rex, h, empty_info]
    simp [this]
  | some elf =>
    rw [rldd_rex_deps_eq fs path elf h]
    exact walk_res_nodup fs path elf _ _ 0 (init_state fs elf)
      (init_state_facts fs elf).1 (init_state_facts fs elf).2

/-- C10: when the root binary's interpreter path names a musl runtime,
the very first record of the reported dependency sequence is the
interpreter — its file name paired with its resolved path (canonicalized
when it exists on disk, kept verbatim otherwise) — no matter what the
rest of the walk appends. -/
theorem c10_musl_interpreter_first (fs : FS) (path : String) (elf : Elf)
    (interp : String)
    (helf : fs.readElf path = some elf)
    (hint : elf.interpreter = some interp)
    (hmusl : hasSub muslPat interp.data = true) :
    (rldd_rex fs path).deps.head?
      = some ((fileName interp).getD interp,
          if fs.pathExists interp
          then (fs.canonical interp).getD interp else interp) := by
  have hinit : init_state fs elf
      = { visited := [], seen := [(fileName interp).getD interp],
          res := [((fileName interp).getD interp,
            if fs.pathExists interp
            then (fs.canonical interp).getD interp else interp)] } := by
    unfold init_state
    rw [hint]
    dsimp only
    rw [if_pos hmusl]
  rw [rldd_rex_deps_eq fs path elf helf]
  obtain ⟨-, -, t, hres, -, -⟩ :=
    inner_good fs path elf
      (final_search_dirs fs path elf
        (if elf.is_64 then ElfArch.Elf64 else ElfArch.Elf32)
        (machine_from_e_machine elf.e_machine))
      (if elf.is_64 then ElfArch.Elf64 else ElfArch.Elf32) 0 (init_state fs elf)
  rw [hres, hinit]
  rfl

/-- Root binary of the C10 witness: a PIE with a musl interpreter and no
needed libraries. -/
def elf10 : Elf :=
  { e_type := 3, is_64 := true, interpreter := some "/lib/ld-musl-x86_64.so.1" }

/-- Filesystem of the C10 witness. -/
def fs10 : FS :=
  { readElf := fun p => if p == "/m" then some elf10 else none,
    metadata := fun p => if p == "/m" then some (1, 1) else none }

/-- Witness for C10: the musl interpreter is the first reported record. -/
theorem c10_witness :
    (rldd_rex fs10 "/m").deps.head?
      = some ("ld-musl-x86_64.so.1", "/lib/ld-musl-x86_64.so.1") :=
  c10_musl_interpreter_first fs10 "/m" elf10 "/lib/ld-musl-x86_64.so.1"
    (by decide) rfl (by decide)

end RlddRex
